import Mathlib

/-!
Verification development for the prob-trainer backend (`server.js`).

The authoritative source is the full variant of `server.js` (the one
containing `extractJson`, `normalizeQuestion`, the `QUESTIONS` map and the
`/gen-questions` / `/check-answer` handlers).  JavaScript runtime values
are modelled by the inductive `JSVal`; JS numbers are modelled as integers
(all behaviour under scrutiny only involves integral values), and the
`undefined`/`null` distinction is collapsed into `JSVal.null` (the source
only ever observes them through `??` and default parameters).
`Math.random()`-based id generation is modelled by passing the drawn id
explicitly.  The HTTP/Express layer, CORS and the outbound DeepSeek fetch
are external collaborators and are not modelled; the embedding starts at
the point where the provider's text has been obtained.

String primitives (`trim`, `toUpperCase`, `String(v)`, regexp tests) are
modelled directly on character lists so that every definition evaluates
inside the kernel.
-/

/-- Whitespace test used to model `String.prototype.trim` (covers the
whitespace actually occurring in the data under scrutiny). -/
def jsIsWS (c : Char) : Bool :=
  c == ' ' || c == '\t' || c == '\n' || c == '\r'

/-- Model of `s.trim()`: drop whitespace from both ends. -/
def jsTrim (s : String) : String :=
  (((s.data.dropWhile jsIsWS).reverse.dropWhile jsIsWS).reverse).asString

/-- Model of `c.toUpperCase()` on a single character (ASCII case map, all
letters in play are ASCII). -/
def jsUpperChar (c : Char) : Char :=
  if 'a' ≤ c && c ≤ 'z' then Char.ofNat (c.toNat - 32) else c

/-- Model of `s.toUpperCase()`. -/
def jsUpper (s : String) : String :=
  (s.data.map jsUpperChar).asString

/-- Decimal digit characters of a natural number (helper for `String(n)`
on numbers). -/
def natDigits (n : Nat) : List Char :=
  (Nat.toDigits 10 n)

/-- Model of `String(n)` for an (integral) JS number. -/
def intToString (n : Int) : String :=
  if n < 0 then ("-" ++ (natDigits n.natAbs).asString)
  else (natDigits n.toNat).asString

/-- Comma join used by `Array.prototype.toString`. -/
def joinComma : List String → String
  | [] => ""
  | [s] => s
  | s :: rest => s ++ "," ++ joinComma rest

/-- Model of a JavaScript runtime value, with numbers restricted to
integers and `undefined` collapsed into `null`. -/
inductive JSVal where
  | null
  | bool (b : Bool)
  | num (n : Int)
  | str (s : String)
  | arr (xs : List JSVal)
  | obj (kvs : List (String × JSVal))

/-- Model of the JS `??` (nullish coalescing) operator: `a ?? b`. -/
def coalesce (a b : JSVal) : JSVal :=
  match a with
  | .null => b
  | v => v

mutual

/-- Model of the JS `String(v)` conversion (for the value shapes the
source ever feeds it); an array prints as its elements joined with `,`,
an object as `[object Object]`. -/
def jsToString : JSVal → String
  | .null => "null"
  | .bool b => cond b "true" "false"
  | .num n => intToString n
  | .str s => s
  | .arr xs => joinComma (jsArrElems xs)
  | .obj _ => "[object Object]"

/-- Element strings of `Array.prototype.toString` (a `null`/`undefined`
element prints as the empty string). -/
def jsArrElems : List JSVal → List String
  | [] => []
  | .null :: rest => "" :: jsArrElems rest
  | v :: rest => jsToString v :: jsArrElems rest

end

/-- Test corresponding to the JS strict equality `v === 'lit'` against a
string literal. -/
def strictEqStr (v : JSVal) (lit : String) : Bool :=
  match v with
  | .str s => s == lit
  | _ => false

/-- Test for the regular expression `/^\d+$/` (one or more ASCII digits). -/
def isDigitString (t : String) : Bool :=
  !t.data.isEmpty && t.data.all (fun c => c.isDigit)

/-- Value of `Number(t)` for a string matching `/^\d+$/`. -/
def digitsToNat (t : String) : Nat :=
  t.data.foldl (fun acc c => acc * 10 + (c.toNat - 48)) 0

/-- Test for the regular expression `/^[A-Da-d]$/`. -/
def isLetterAD (t : String) : Bool :=
  t == "A" || t == "B" || t == "C" || t == "D" ||
  t == "a" || t == "b" || t == "c" || t == "d"

/-- Model of `String.fromCharCode(n)`: the argument is taken mod 2^16
(ECMAScript ToUint16) and turned into a one-character string. -/
def fromCharCode (n : Int) : String :=
  String.singleton (Char.ofNat ((n % 65536).toNat))

/-- Clamp used on the normalization side:
`Math.max(0, Math.min(options.length - 1, n))` (note that
`options.length - 1` is `-1` for empty options). -/
def clampIdx (len : Nat) (n : Int) : Int :=
  max 0 (min ((len : Int) - 1) n)

/-- Raw candidate question as received from the model output; every field
the source reads is present, `JSVal.null` standing for an absent field. -/
structure RawQuestion where
  id : JSVal := .null
  type : JSVal := .null
  content_md : JSVal := .null
  content : JSVal := .null
  text : JSVal := .null
  title : JSVal := .null
  options : JSVal := .null
  answers : JSVal := .null
  answer : JSVal := .null
  explanation_md : JSVal := .null
  explanation : JSVal := .null
  rationale : JSVal := .null
  section_id : JSVal := .null

/-- Canonical question record as built by `normalizeQuestion` (the exact
shape of the object literal it returns). -/
structure Question where
  id : String
  section_id : String
  title : JSVal
  type : String
  content_md : JSVal
  options : List String
  answer : JSVal
  explanation_md : JSVal

/-- Options computation of `normalizeQuestion`:
`Array.isArray(q.options) ? q.options.map(String) : []`, then the
`answers`-array fallback for `mcq` questions with empty options. -/
def normOptions (q : RawQuestion) (type : String) : List String :=
  let options := match q.options with
    | .arr xs => xs.map jsToString
    | _ => []
  if type = "mcq" && options.isEmpty then
    match q.answers with
    | .arr ys => ys.map jsToString
    | _ => options
  else options

/-- Answer resolution of `normalizeQuestion` (the `let answer = q.answer`
block): a number is clamped into the option range and mapped to a letter;
a digit string likewise; a single `A`–`D` letter is uppercased; a string
equal (after trimming) to some option's trimmed text maps to that option's
letter; anything else is left unchanged. -/
def resolveAnswerNorm (options : List String) (answer : JSVal) : JSVal :=
  match answer with
  | .num n => .str (fromCharCode (65 + clampIdx options.length n))
  | .str sA =>
      let t := jsTrim sA
      if isDigitString t then
        .str (fromCharCode (65 + clampIdx options.length (digitsToNat t)))
      else if isLetterAD t then
        .str (jsUpper t)
      else
        match options.findIdx? (fun o => jsTrim o == t) with
        | some idx => .str (fromCharCode (65 + (idx : Int)))
        | none => .str sA
  | other => other

/-- Embedding of `normalizeQuestion(q, sectionIdFallback = 'misc')`.
`freshId` is the value `cryptoRandomId()` would draw; `fallback` is the
second JS argument, `none` standing for `undefined` (which triggers the
JS default `'misc'`). -/
def normalizeQuestion (q : RawQuestion) (freshId : String)
    (fallback : Option JSVal) : Question :=
  let fb : JSVal := fallback.getD (.str "misc")
  let id := jsToString (coalesce q.id (.str freshId))
  let type := if strictEqStr q.type "num" then "num" else "mcq"
  let content_md := coalesce q.content_md
    (coalesce q.content (coalesce q.text (coalesce q.title (.str ""))))
  let options := normOptions q type
  let answer := resolveAnswerNorm options q.answer
  let explanation_md := coalesce q.explanation_md
    (coalesce q.explanation (coalesce q.rationale (.str "")))
  { id := id
    section_id := jsToString (coalesce q.section_id fb)
    title := coalesce q.title (.str "")
    type := type
    content_md := content_md
    options := options
    answer := answer
    explanation_md := explanation_md }

/-- Serialization of a normalized question as sent by
`res.json({ questions: normalized })`: the field list of the object
literal returned by `normalizeQuestion`, in source order. -/
def questionToFields (q : Question) : List (String × JSVal) :=
  [("id", .str q.id),
   ("section_id", .str q.section_id),
   ("title", q.title),
   ("type", .str q.type),
   ("content_md", q.content_md),
   ("options", .arr (q.options.map JSVal.str)),
   ("answer", q.answer),
   ("explanation_md", q.explanation_md)]

/-- Letter-keyed view of a (positional) options list starting at index
`k`: index `i` is displayed under key `String.fromCharCode(65 + i)`. -/
def letterMapFrom (k : Nat) : List String → List (String × String)
  | [] => []
  | o :: rest => (fromCharCode (65 + (k : Int)), o) :: letterMapFrom (k + 1) rest

/-- Letter-keyed view of a (positional) options list. -/
def letterMap (opts : List String) : List (String × String) :=
  letterMapFrom 0 opts

/-- Test whether a value is one of the letter keys of an options list. -/
def isOptionKey (opts : List String) (v : JSVal) : Bool :=
  (List.range opts.length).any fun i => strictEqStr v (fromCharCode (65 + (i : Int)))

/-- Fallback section id for the `i`-th candidate, as computed at the call
site `sections[i % Math.max(1, sections.length)]?.id` (each section is an
arbitrary JS value; `?.id` yields `undefined`, i.e. `none`, when the
element is missing, not an object, or lacks an `id` field). -/
def sectionFallback (sections : List JSVal) (i : Nat) : Option JSVal :=
  match sections.get? (i % max 1 sections.length) with
  | some (.obj kvs) => kvs.lookup "id"
  | _ => none

/-- Indexed worker for `genNormalize`. -/
def genNormalizeAux (sections : List JSVal) (freshIds : Nat → String) :
    List RawQuestion → Nat → List Question
  | [], _ => []
  | q :: rest, i =>
      normalizeQuestion q (freshIds i) (sectionFallback sections i) ::
        genNormalizeAux sections freshIds rest (i + 1)

/-- Normalization of the extracted question list,
`list.map((q, i) => normalizeQuestion(q, sections[...]?.id))`; `freshIds`
supplies the `cryptoRandomId()` draw for each position. -/
def genNormalize (list : List RawQuestion) (sections : List JSVal)
    (freshIds : Nat → String) : List Question :=
  genNormalizeAux sections freshIds list 0

/-- Association-list model of the process-wide `QUESTIONS` JS `Map`
(insertion order preserved, `set` overwrites in place). -/
def mapSet (m : List (String × Question)) (k : String) (v : Question) :
    List (String × Question) :=
  match m with
  | [] => [(k, v)]
  | (k', v') :: rest =>
      if k' = k then (k, v) :: rest else (k', v') :: mapSet rest k v

/-- Lookup in the `QUESTIONS` map model. -/
def mapGet (m : List (String × Question)) (k : String) : Option Question :=
  match m with
  | [] => none
  | (k', v') :: rest => if k' = k then some v' else mapGet rest k

/-- Store effect of a generation call:
`normalized.forEach(q => QUESTIONS.set(q.id, q))`. -/
def storeQuestions (qs : List Question) (st : List (String × Question)) :
    List (String × Question) :=
  qs.foldl (fun m q => mapSet m q.id q) st

/-- Result of a successful `/gen-questions` call (after the provider
response has been parsed): the JSON payload `{ questions: normalized }`
and the updated `QUESTIONS` store. -/
structure GenResult where
  questions : List Question
  store : List (String × Question)

/-- Embedding of the tail of the `/gen-questions` handler, from the
extracted `questions` list onward: normalize every candidate, cache all
of them, and return all of them. -/
def genQuestions (list : List RawQuestion) (sections : List JSVal)
    (freshIds : Nat → String) (st : List (String × Question)) : GenResult :=
  let normalized := genNormalize list sections freshIds
  { questions := normalized
    store := storeQuestions normalized st }

/-- Top-level keys of the `/gen-questions` success payload
(`res.json({ questions: normalized })`). -/
def genPayloadKeys : List String := ["questions"]

/-- User-answer resolution of the `/check-answer` handler for `mcq`
questions (the `if (q.type === 'mcq')` block): same tiers as
`resolveAnswerNorm`, but numeric values and digit strings are NOT clamped
into the option range. -/
def resolveUserAns (options : List String) (userAns : JSVal) : JSVal :=
  match userAns with
  | .num n => .str (fromCharCode (65 + n))
  | .str sA =>
      let t := jsTrim sA
      if isDigitString t then
        .str (fromCharCode (65 + (digitsToNat t : Int)))
      else if isLetterAD t then
        .str (jsUpper t)
      else
        match options.findIdx? (fun o => jsTrim o == t) with
        | some idx => .str (fromCharCode (65 + (idx : Int)))
        | none => .str sA
  | other => other

/-- Model of JS truthiness on the values in play (`q.explanation_md || ''`). -/
def jsTruthy : JSVal → Bool
  | .null => false
  | .bool b => b
  | .num n => n != 0
  | .str s => !(s == "")
  | .arr _ => true
  | .obj _ => true

/-- Model of `Number(v)` restricted to the value shapes in play; `none`
stands for `NaN`. -/
def jsToNumber : JSVal → Option Int
  | .null => some 0
  | .bool b => some (cond b 1 0)
  | .num n => some n
  | .str s =>
      let t := jsTrim s
      if t == "" then some 0
      else if isDigitString t then some (digitsToNat t : Int)
      else match t.data with
        | '-' :: rest =>
            if !rest.isEmpty && rest.all (fun c => c.isDigit) then
              some (-(digitsToNat rest.asString : Int))
            else none
        | _ => none
  | .arr _ => none
  | .obj _ => none

/-- Equality on JS numbers with `NaN === NaN` being false. -/
def jsNumEq (a b : Option Int) : Bool :=
  match a, b with
  | some x, some y => x == y
  | _, _ => false

/-- Payload of a successful `/check-answer` call. -/
structure CheckPayload where
  correct : Bool
  correctAnswer : JSVal
  explanation_md : JSVal
  question : List (String × JSVal)

/-- Embedding of the `/check-answer` handler from the `QUESTIONS` lookup
onward (the multi-shape body-field extraction merely computes `qid` and
`userAns`, which are taken as inputs here): `none` models the 404
`question_not_found` response. -/
def checkAnswer (st : List (String × Question)) (qid : String)
    (userAns : JSVal) : Option CheckPayload :=
  match mapGet st qid with
  | none => none
  | some q =>
      let ua := if q.type = "mcq" then resolveUserAns q.options userAns else userAns
      let correct :=
        if q.type = "mcq" then
          jsUpper (jsToString ua) == jsUpper (jsToString q.answer)
        else
          jsNumEq (jsToNumber ua) (jsToNumber q.answer)
      some
        { correct := correct
          correctAnswer := q.answer
          explanation_md := if jsTruthy q.explanation_md then q.explanation_md else .str ""
          question :=
            [("id", .str q.id), ("type", .str q.type),
             ("content_md", q.content_md),
             ("options", .arr (q.options.map JSVal.str))] }

/-- Parsed JSON value; a number literal is kept as mantissa `m` and
decimal exponent `e` (value `m * 10^e`), which loses nothing for the
integral literals in play. -/
inductive Json where
  | null
  | bool (b : Bool)
  | num (m : Int) (e : Int)
  | str (s : String)
  | arr (xs : List Json)
  | obj (kvs : List (String × Json))

/-- JSON insignificant whitespace. -/
def jsonWS (c : Char) : Bool :=
  c == ' ' || c == '\t' || c == '\n' || c == '\r'

/-- Skip JSON whitespace. -/
def skipWS (cs : List Char) : List Char := cs.dropWhile jsonWS

/-- Hexadecimal digit value. -/
def hexVal (c : Char) : Option Nat :=
  if c.isDigit then some (c.toNat - 48)
  else if 'a' ≤ c && c ≤ 'f' then some (c.toNat - 87)
  else if 'A' ≤ c && c ≤ 'F' then some (c.toNat - 70)
  else none

/-- Body of a JSON string literal (the opening quote already consumed):
returns the decoded characters and the input after the closing quote. -/
def parseJStringBody : List Char → Option (List Char × List Char)
  | [] => none
  | '"' :: rest => some ([], rest)
  | '\\' :: esc =>
      match esc with
      | '"' :: rest => (parseJStringBody rest).map fun p => ('"' :: p.1, p.2)
      | '\\' :: rest => (parseJStringBody rest).map fun p => ('\\' :: p.1, p.2)
      | '/' :: rest => (parseJStringBody rest).map fun p => ('/' :: p.1, p.2)
      | 'b' :: rest => (parseJStringBody rest).map fun p => ('\x08' :: p.1, p.2)
      | 'f' :: rest => (parseJStringBody rest).map fun p => ('\x0c' :: p.1, p.2)
      | 'n' :: rest => (parseJStringBody rest).map fun p => ('\n' :: p.1, p.2)
      | 'r' :: rest => (parseJStringBody rest).map fun p => ('\r' :: p.1, p.2)
      | 't' :: rest => (parseJStringBody rest).map fun p => ('\t' :: p.1, p.2)
      | 'u' :: a :: b :: c :: d :: rest =>
          match hexVal a, hexVal b, hexVal c, hexVal d with
          | some ha, some hb, some hc, some hd =>
              (parseJStringBody rest).map fun p =>
                (Char.ofNat (((ha * 16 + hb) * 16 + hc) * 16 + hd) :: p.1, p.2)
          | _, _, _, _ => none
      | _ => none
  | c :: rest =>
      if c.toNat < 32 then none
      else (parseJStringBody rest).map fun p => (c :: p.1, p.2)

/-- Span of decimal digits (at least one required). -/
def digitSpan (cs : List Char) : Option (List Char × List Char) :=
  let ds := cs.takeWhile (fun c => c.isDigit)
  if ds.isEmpty then none else some (ds, cs.drop ds.length)

/-- Integer value of a digit run. -/
def digitsInt (ds : List Char) : Int :=
  ds.foldl (fun a c => a * 10 + ((c.toNat : Int) - 48)) 0

/-- JSON number literal: optional minus, integer part (`0` or a nonzero
digit run), optional fraction, optional exponent. -/
def parseJNumber (cs : List Char) : Option (Json × List Char) := do
  let (neg, cs₁) := match cs with
    | '-' :: r => (true, r)
    | _ => (false, cs)
  let (intDs, cs₂) ← match cs₁ with
    | '0' :: r => some (['0'], r)
    | c :: _ =>
        if '1' ≤ c && c ≤ '9' then digitSpan cs₁ else none
    | [] => none
  let (fracDs, cs₃) ← match cs₂ with
    | '.' :: r => (digitSpan r).map fun p => (p.1, p.2)
    | _ => some ([], cs₂)
  let (expVal, cs₄) ← match cs₃ with
    | 'e' :: r | 'E' :: r =>
        match r with
        | '+' :: r₂ => (digitSpan r₂).map fun p => (digitsInt p.1, p.2)
        | '-' :: r₂ => (digitSpan r₂).map fun p => (-(digitsInt p.1), p.2)
        | _ => (digitSpan r).map fun p => (digitsInt p.1, p.2)
    | _ => some ((0 : Int), cs₃)
  let mant := digitsInt (intDs ++ fracDs)
  let m := if neg then -mant else mant
  some (.num m (expVal - (fracDs.length : Int)), cs₄)

mutual

/-- JSON value parser (fuel-indexed recursive descent); leading
whitespace is skipped, the remainder after the value is returned. -/
def parseJValue : Nat → List Char → Option (Json × List Char)
  | 0, _ => none
  | fuel + 1, cs =>
      match skipWS cs with
      | '{' :: rest => parseJMembers fuel (skipWS rest) true
      | '[' :: rest => parseJElems fuel (skipWS rest) true
      | '"' :: rest => (parseJStringBody rest).map fun p => (.str p.1.asString, p.2)
      | 't' :: 'r' :: 'u' :: 'e' :: rest => some (.bool true, rest)
      | 'f' :: 'a' :: 'l' :: 's' :: 'e' :: rest => some (.bool false, rest)
      | 'n' :: 'u' :: 'l' :: 'l' :: rest => some (.null, rest)
      | other => parseJNumber other

/-- Members of a JSON object (after `{`, whitespace skipped); `first`
marks that no member has been read yet, so `}` is allowed immediately. -/
def parseJMembers : Nat → List Char → Bool → Option (Json × List Char)
  | 0, _, _ => none
  | _ + 1, '}' :: rest, true => some (.obj [], rest)
  | fuel + 1, cs, _ =>
      match cs with
      | '"' :: rest => do
          let (key, cs₁) ← parseJStringBody rest
          match skipWS cs₁ with
          | ':' :: cs₂ => do
              let (v, cs₃) ← parseJValue fuel cs₂
              match skipWS cs₃ with
              | ',' :: cs₄ => do
                  let (tail, cs₅) ← parseJMembers fuel (skipWS cs₄) false
                  match tail with
                  | .obj kvs => some (.obj ((key.asString, v) :: kvs), cs₅)
                  | _ => none
              | '}' :: cs₄ => some (.obj [(key.asString, v)], cs₄)
              | _ => none
          | _ => none
      | _ => none

/-- Elements of a JSON array (after `[`, whitespace skipped). -/
def parseJElems : Nat → List Char → Bool → Option (Json × List Char)
  | 0, _, _ => none
  | _ + 1, ']' :: rest, true => some (.arr [], rest)
  | fuel + 1, cs, _ => do
      let (v, cs₁) ← parseJValue fuel cs
      match skipWS cs₁ with
      | ',' :: cs₂ => do
          let (tail, cs₃) ← parseJElems fuel (skipWS cs₂) false
          match tail with
          | .arr xs => some (.arr (v :: xs), cs₃)
          | _ => none
      | ']' :: cs₂ => some (.arr [v], cs₂)
      | _ => none

end

/-- Model of `JSON.parse(s)`: parse one JSON value and require only
whitespace to remain. -/
def jsonParse (s : String) : Option Json :=
  match parseJValue (s.data.length + 1) s.data with
  | some (v, rest) => if (skipWS rest).isEmpty then some v else none
  | none => none

/-- Model of `str.slice(a, b)` (code-unit indices, here character
indices): characters `a` (inclusive) to `b` (exclusive). -/
def sliceStr (s : String) (a b : Nat) : String :=
  ((s.data.drop a).take (b - a)).asString

/-- Loop of `extractJson`, generic in the parser used for each candidate
slice: `depth` and `start` are the mutable locals of the source
(`start = none` standing for `-1`), `i` the current index into `s`. -/
def extractScan {α : Type} (parse : String → Option α) (s : String) :
    List Char → Nat → Int → Option Nat → Option α
  | [], _, _, _ => none
  | c :: rest, i, depth, start =>
      if c = '{' then
        extractScan parse s rest (i + 1) (depth + 1)
          (if depth = 0 then some i else start)
      else if c = '}' then
        let d := depth - 1
        match start with
        | some st =>
            if d = 0 then
              match parse (sliceStr s st (i + 1)) with
              | some v => some v
              | none => extractScan parse s rest (i + 1) d start
            else extractScan parse s rest (i + 1) d start
        | none => extractScan parse s rest (i + 1) d start
      else extractScan parse s rest (i + 1) depth start

/-- Embedding of `extractJson(str)` with an explicit slice parser;
`none` models the thrown `'JSON not found in content'` error. -/
def extractJsonWith {α : Type} (parse : String → Option α) (s : String) :
    Option α :=
  extractScan parse s s.data 0 0 none

/-- Embedding of `extractJson(str)` itself (slices parsed by
`JSON.parse`). -/
def extractJson (s : String) : Option Json :=
  extractJsonWith jsonParse s

/-- Candidate spans attempted by the `extractJson` loop, as (start index,
closing-brace index) pairs, in the order the loop attempts them. -/
def scanSpans : List Char → Nat → Int → Option Nat → List (Nat × Nat)
  | [], _, _, _ => []
  | c :: rest, i, depth, start =>
      if c = '{' then
        scanSpans rest (i + 1) (depth + 1) (if depth = 0 then some i else start)
      else if c = '}' then
        let d := depth - 1
        match start with
        | some st =>
            if d = 0 then (st, i) :: scanSpans rest (i + 1) d start
            else scanSpans rest (i + 1) d start
        | none => scanSpans rest (i + 1) d start
      else scanSpans rest (i + 1) depth start

/-- Brace-depth transition of one character. -/
def braceStep (d : Int) (c : Char) : Int :=
  if c = '{' then d + 1 else if c = '}' then d - 1 else d

/-- Net brace depth of a character list (count of `{` minus count of
`}`), the depth the scanner has after reading it. -/
def braceDepth (cs : List Char) : Int :=
  cs.foldl braceStep 0

/-- Position `i` holds a top-level opening brace: the character is `{`
and the scan depth just before it is `0`. -/
def openAtTop (cs : List Char) (i : Nat) : Bool :=
  (cs[i]? == some '{') && (braceDepth (cs.take i) == 0)

/-- Last top-level opening brace of a character list. -/
def lastOpen (cs : List Char) : Option Nat :=
  ((List.range cs.length).filter (openAtTop cs)).getLast?

/-- Position `j` closes a top-level span: the character is `}` and the
scan depth returns to `0` right after it. -/
def closesAt (cs : List Char) (j : Nat) : Bool :=
  (cs[j]? == some '}') && (braceDepth (cs.take (j + 1)) == 0)

/-- Declarative description of the candidate spans from position `k` on:
every top-level closing brace `j ≥ k`, paired with the last top-level
opening brace before it. -/
def specSpansFrom (cs : List Char) (k : Nat) : List (Nat × Nat) :=
  (List.range' k (cs.length - k)).filterMap fun j =>
    if closesAt cs j then (lastOpen (cs.take j)).map fun st => (st, j)
    else none

/-- Declarative description of all candidate spans of a text. -/
def specSpans (cs : List Char) : List (Nat × Nat) :=
  specSpansFrom cs 0

/-- Candidate with an answer (`"z"`) that no tier can resolve against
options `x`, `y`. -/
def rawZ : RawQuestion :=
  { id := .str "q1", options := .arr [.str "x", .str "y"], answer := .str "z" }

/-- Candidate with a well-formed letter answer and an explanation. -/
def rawA : RawQuestion :=
  { id := .str "q1", options := .arr [.str "x", .str "y"],
    answer := .str "A", explanation := .str "because" }

/-- Candidate `q1` stored by a first generation call. -/
def rawQ1 : RawQuestion :=
  { id := .str "q1", options := .arr [.str "x", .str "y"], answer := .str "A" }

/-- Candidate `q2` stored by a second generation call. -/
def rawQ2 : RawQuestion :=
  { id := .str "q2", options := .arr [.str "x", .str "y"], answer := .str "B" }

/-- Candidate declaring the numeric type tag the source recognizes
(`"num"`), with options and an in-range numeric answer. -/
def rawNum : RawQuestion :=
  { id := .str "q1", type := .str "num",
    options := .arr [.str "1", .str "2"], answer := .num 0 }

/-- Candidate declaring type `"numeric"`, which the source does NOT
recognize. -/
def rawNumeric : RawQuestion :=
  { id := .str "q2", type := .str "numeric", answer := .num 3 }

/-- Candidate with sequence options and a zero-based index answer. -/
def rawSeqIdx : RawQuestion :=
  { id := .str "q1", options := .arr [.str "2", .str "3", .str "5"],
    answer := .num 1 }

/-- Candidate with sequence options and an answer equal to the text of
the third option. -/
def rawSeqText : RawQuestion :=
  { id := .str "q1", options := .arr [.str "2", .str "3", .str "5"],
    answer := .str "5" }

/-- Canonical mcq question whose option B has the digit text `"5"`. -/
def qDigitText : Question :=
  { id := "q1", section_id := "s", title := .str "", type := "mcq",
    content_md := .str "", options := ["x", "5"], answer := .str "B",
    explanation_md := .str "" }

/-- Question `w1` and its same-id replacement `w2`. -/
def qW1 : Question :=
  { id := "qq", section_id := "s", title := .str "", type := "mcq",
    content_md := .str "", options := ["x", "y"], answer := .str "A",
    explanation_md := .str "e1" }

/-- Question overwriting `qW1` under the same id. -/
def qW2 : Question :=
  { id := "qq", section_id := "s", title := .str "", type := "mcq",
    content_md := .str "", options := ["x", "y"], answer := .str "B",
    explanation_md := .str "e2" }

/-- Numeric-index tier of both pipelines: the value treated as a
zero-based index, when the answer is a number or a digit string. -/
def numIdxOf : JSVal → Option Int
  | .num n => some n
  | .str s =>
      if isDigitString (jsTrim s) then some (digitsToNat (jsTrim s) : Int)
      else none
  | _ => none

theorem braceStep_add (d : Int) (c : Char) :
    braceStep d c = d + braceStep 0 c := by
  unfold braceStep
  by_cases h1 : c = '{' <;> by_cases h2 : c = '}' <;>
    first
    | (simp [h1, h2]; omega)
    | simp [h1, h2]

theorem foldl_braceStep_shift (xs : List Char) (d : Int) :
    xs.foldl braceStep d = d + braceDepth xs := by
  induction xs generalizing d with
  | nil => simp [braceDepth]
  | cons c rest ih =>
      simp only [braceDepth, List.foldl_cons] at *
      rw [ih, ih (braceStep 0 c), braceStep_add, add_assoc]

theorem braceDepth_snoc (xs : List Char) (c : Char) :
    braceDepth (xs ++ [c]) = braceStep (braceDepth xs) c := by
  simp [braceDepth, List.foldl_append]

theorem lastOpen_snoc (xs : List Char) (c : Char) :
    lastOpen (xs ++ [c]) =
      if c = '{' ∧ braceDepth xs = 0 then some xs.length else lastOpen xs := by
  unfold lastOpen
  rw [List.length_append, List.length_singleton, List.range_succ,
    List.filter_append]
  have hsame : (List.range xs.length).filter (openAtTop (xs ++ [c])) =
      (List.range xs.length).filter (openAtTop xs) := by
    apply List.filter_congr
    intro i hi
    rw [List.mem_range] at hi
    unfold openAtTop
    rw [List.getElem?_append_left hi, List.take_append_of_le_length (le_of_lt hi)]
  rw [hsame]
  have hget : (xs ++ [c])[xs.length]? = some c := List.getElem?_concat_length xs c
  have htake : (xs ++ [c]).take xs.length = xs := List.take_left xs [c]
  by_cases h1 : c = '{' <;> by_cases h2 : braceDepth xs = 0 <;>
    simp [List.filter_cons, openAtTop, hget, htake, h1, h2, List.getLast?_concat]

theorem extractScan_eq_findSome {α : Type} (parse : String → Option α)
    (s : String) (cs : List Char) :
    ∀ (i : Nat) (d : Int) (st : Option Nat),
    extractScan parse s cs i d st =
      (scanSpans cs i d st).findSome? fun p => parse (sliceStr s p.1 (p.2 + 1)) := by
  induction cs with
  | nil => intro i d st; rfl
  | cons c rest ih =>
      intro i d st
      by_cases hb : c = '{'
      · simp [extractScan, scanSpans, hb, ih]
      · by_cases hc : c = '}'
        · cases st with
          | none => simp [extractScan, scanSpans, hb, hc, ih]
          | some st₀ =>
              by_cases hd : d - 1 = 0
              · simp only [extractScan, scanSpans, if_neg hb, if_pos hc, hd,
                  if_pos rfl, List.findSome?_cons]
                cases hp : parse (sliceStr s st₀ (i + 1)) <;> simp [hp, ih]
              · simp [extractScan, scanSpans, hb, hc, hd, ih]
        · simp [extractScan, scanSpans, hb, hc, ih]

theorem scanSpans_eq_specSpansFrom (full : List Char) (cs : List Char) :
    ∀ (pre : List Char), full = pre ++ cs →
    scanSpans cs pre.length (braceDepth pre) (lastOpen pre) =
      specSpansFrom full pre.length := by
  induction cs with
  | nil =>
      intro pre h
      subst h
      simp [scanSpans, specSpansFrom]
  | cons c rest ih =>
      intro pre h
      have hlen : full.length = pre.length + (rest.length + 1) := by
        subst h
        simp only [List.length_append, List.length_cons]
      have hrange : List.range' pre.length (full.length - pre.length) =
          pre.length :: List.range' (pre.length + 1) (full.length - (pre.length + 1)) := by
        rw [show full.length - (pre.length + 1) = rest.length by omega,
          show full.length - pre.length = rest.length + 1 by omega]
        rfl
      have hget : full[pre.length]? = some c := by
        subst h
        rw [List.getElem?_append_right (le_refl _)]
        simp
      have htake : full.take pre.length = pre := by
        subst h; exact List.take_left pre (c :: rest)
      have htake1 : full.take (pre.length + 1) = pre ++ [c] := by
        subst h
        rw [List.take_append_eq_append_take,
          List.take_of_length_le (by omega : pre.length ≤ pre.length + 1)]
        simp
      have happ : full = (pre ++ [c]) ++ rest := by subst h; simp
      have hihc := ih (pre ++ [c]) happ
      rw [List.length_append, List.length_singleton, braceDepth_snoc,
        lastOpen_snoc] at hihc
      have hdep1 : braceDepth (full.take (pre.length + 1)) =
          braceStep (braceDepth pre) c := by
        rw [htake1, braceDepth_snoc]
      unfold specSpansFrom
      rw [hrange]
      by_cases hb : c = '{'
      · have hf : (if closesAt full pre.length = true then
            (lastOpen (full.take pre.length)).map (fun st => (st, pre.length))
            else none) = none := by
          simp [closesAt, hget, hb]
        rw [List.filterMap_cons, hf]
        have hs : scanSpans (c :: rest) pre.length (braceDepth pre) (lastOpen pre) =
            scanSpans rest (pre.length + 1) (braceDepth pre + 1)
              (if braceDepth pre = 0 then some pre.length else lastOpen pre) := by
          simp [scanSpans, hb]
        rw [hs]
        rw [show braceStep (braceDepth pre) c = braceDepth pre + 1 from by
          simp [braceStep, hb]] at hihc
        rw [show (if c = '{' ∧ braceDepth pre = 0 then some pre.length
            else lastOpen pre) = (if braceDepth pre = 0 then some pre.length
            else lastOpen pre) from by simp [hb]] at hihc
        rw [hihc]
        rfl
      · by_cases hc : c = '}'
        · have hstep : braceStep (braceDepth pre) c = braceDepth pre - 1 := by
            simp [braceStep, hb, hc]
          rw [hstep] at hihc
          rw [show (if c = '{' ∧ braceDepth pre = 0 then some pre.length
              else lastOpen pre) = lastOpen pre from by simp [hb]] at hihc
          by_cases hd : braceDepth pre - 1 = 0
          · have hcl : closesAt full pre.length = true := by
              have hz : braceDepth (full.take (pre.length + 1)) = 0 := by
                rw [hdep1, hstep]; exact hd
              simp [closesAt, hget, hc, hz]
            cases hlo : lastOpen pre with
            | none =>
                have hf : (if closesAt full pre.length = true then
                    (lastOpen (full.take pre.length)).map (fun st => (st, pre.length))
                    else none) = none := by
                  simp [hcl, htake, hlo]
                rw [List.filterMap_cons, hf]
                have hs : scanSpans (c :: rest) pre.length (braceDepth pre) none =
                    scanSpans rest (pre.length + 1) (braceDepth pre - 1) none := by
                  simp [scanSpans, hb, hc]
                rw [hlo] at hihc
                rw [hs, hihc]
                rfl
            | some st₀ =>
                have hf : (if closesAt full pre.length = true then
                    (lastOpen (full.take pre.length)).map (fun st => (st, pre.length))
                    else none) = some (st₀, pre.length) := by
                  simp [hcl, htake, hlo]
                rw [List.filterMap_cons, hf]
                have hs : scanSpans (c :: rest) pre.length (braceDepth pre) (some st₀) =
                    (st₀, pre.length) ::
                      scanSpans rest (pre.length + 1) (braceDepth pre - 1) (some st₀) := by
                  simp [scanSpans, hb, hc, hd]
                rw [hlo] at hihc
                rw [hs, hihc]
                rfl
          · have hcl : closesAt full pre.length = false := by
              simp only [closesAt, hdep1, hstep]
              simp [hd]
            have hf : (if closesAt full pre.length = true then
                (lastOpen (full.take pre.length)).map (fun st => (st, pre.length))
                else none) = none := by
              simp [hcl]
            rw [List.filterMap_cons, hf]
            cases hlo : lastOpen pre with
            | none =>
                have hs : scanSpans (c :: rest) pre.length (braceDepth pre) none =
                    scanSpans rest (pre.length + 1) (braceDepth pre - 1) none := by
                  simp [scanSpans, hb, hc]
                rw [hlo] at hihc
                rw [hs, hihc]
                rfl
            | some st₀ =>
                have hs : scanSpans (c :: rest) pre.length (braceDepth pre) (some st₀) =
                    scanSpans rest (pre.length + 1) (braceDepth pre - 1) (some st₀) := by
                  simp [scanSpans, hb, hc, hd]
                rw [hlo] at hihc
                rw [hs, hihc]
                rfl
        · have hcl : closesAt full pre.length = false := by
            simp [closesAt, hget, hc]
          have hf : (if closesAt full pre.length = true then
              (lastOpen (full.take pre.length)).map (fun st => (st, pre.length))
              else none) = none := by
            simp [hcl]
          rw [List.filterMap_cons, hf]
          have hs : scanSpans (c :: rest) pre.length (braceDepth pre) (lastOpen pre) =
              scanSpans rest (pre.length + 1) (braceDepth pre) (lastOpen pre) := by
            simp [scanSpans, hb, hc]
          rw [show braceStep (braceDepth pre) c = braceDepth pre from by
            simp [braceStep, hb, hc]] at hihc
          rw [show (if c = '{' ∧ braceDepth pre = 0 then some pre.length
              else lastOpen pre) = lastOpen pre from by simp [hb]] at hihc
          rw [hs, hihc]
          rfl

theorem extractJsonWith_eq_spec {α : Type} (parse : String → Option α)
    (s : String) :
    extractJsonWith parse s =
      (specSpans s.data).findSome? fun p => parse (sliceStr s p.1 (p.2 + 1)) := by
  unfold extractJsonWith specSpans
  rw [extractScan_eq_findSome]
  have h0 : scanSpans s.data 0 0 none = specSpansFrom s.data 0 := by
    have h1 := scanSpans_eq_specSpansFrom s.data s.data [] (by simp)
    simpa [braceDepth, lastOpen] using h1
  rw [h0]

theorem lastOpen_is_open {l : List Char} {i : Nat} (h : lastOpen l = some i) :
    i < l.length ∧ l[i]? = some '{' ∧ braceDepth (l.take i) = 0 := by
  unfold lastOpen at h
  have hm : i ∈ (List.range l.length).filter (openAtTop l) := by
    have hmem : i ∈ ((List.range l.length).filter (openAtTop l)).getLast? :=
      Option.mem_def.mpr h
    obtain ⟨hne, heq⟩ := List.mem_getLast?_eq_getLast hmem
    rw [heq]
    exact List.getLast_mem hne
  rw [List.mem_filter, List.mem_range] at hm
  obtain ⟨h1, h2⟩ := hm
  simp only [openAtTop, Bool.and_eq_true, beq_iff_eq] at h2
  exact ⟨h1, h2.1, h2.2⟩

theorem specSpans_mem {cs : List Char} {p : Nat × Nat}
    (hp : p ∈ specSpans cs) :
    cs[p.1]? = some '{' ∧ braceDepth (cs.take p.1) = 0 ∧
    cs[p.2]? = some '}' ∧ braceDepth (cs.take (p.2 + 1)) = 0 ∧
    p.1 < p.2 ∧ braceDepth ((cs.take (p.2 + 1)).drop p.1) = 0 := by
  unfold specSpans specSpansFrom at hp
  rw [List.mem_filterMap] at hp
  obtain ⟨j, hj, heq⟩ := hp
  by_cases hcl : closesAt cs j = true
  · rw [if_pos hcl] at heq
    rw [Option.map_eq_some'] at heq
    obtain ⟨st, hst, hpj⟩ := heq
    subst hpj
    simp only
    have hopen := lastOpen_is_open hst
    have hstlt : st < j := by
      have := hopen.1
      simp only [List.length_take] at this
      omega
    have hchar : cs[st]? = some '{' := by
      have hco := hopen.2.1
      rwa [List.getElem?_take, if_pos hstlt] at hco
    have hdep : braceDepth (cs.take st) = 0 := by
      have := hopen.2.2
      rwa [List.take_take, min_eq_left (le_of_lt hstlt)] at this
    simp only [closesAt, Bool.and_eq_true, beq_iff_eq] at hcl
    refine ⟨hchar, hdep, hcl.1, hcl.2, hstlt, ?_⟩
    have hsplit : cs.take (j + 1) =
        (cs.take (j + 1)).take st ++ (cs.take (j + 1)).drop st :=
      (List.take_append_drop st (cs.take (j + 1))).symm
    have htt : (cs.take (j + 1)).take st = cs.take st := by
      rw [List.take_take, min_eq_left (by omega : st ≤ j + 1)]
    have := hcl.2
    rw [hsplit, braceDepth, List.foldl_append, htt] at this
    rw [← braceDepth] at this
    rw [foldl_braceStep_shift] at this
    rw [hdep] at this
    simpa using this
  · rw [if_neg hcl] at heq
    exact absurd heq (by simp)

theorem filterMap_id_sublist {g : Nat → Option (Nat × Nat)}
    (hg : ∀ a b, g a = some b → b.2 = a) :
    ∀ l : List Nat, List.Sublist ((l.filterMap g).map Prod.snd) l := by
  intro l
  induction l with
  | nil => simp
  | cons a rest ih =>
      rw [List.filterMap_cons]
      cases hga : g a with
      | none => exact ih.cons a
      | some b =>
          rw [List.map_cons, hg a b hga]
          exact ih.cons₂ a

theorem specSpans_snd_sorted (cs : List Char) :
    ((specSpans cs).map Prod.snd).Pairwise (· < ·) := by
  have hsub : List.Sublist ((specSpans cs).map Prod.snd) (List.range' 0 cs.length) := by
    unfold specSpans specSpansFrom
    apply filterMap_id_sublist
    intro a b hab
    by_cases hcl : closesAt cs a = true
    · rw [if_pos hcl, Option.map_eq_some'] at hab
      obtain ⟨st, _, hpb⟩ := hab
      rw [← hpb]
    · rw [if_neg hcl] at hab
      exact absurd hab (by simp)
  have hr : (List.range' 0 cs.length).Pairwise (· < ·) := by
    rw [← List.range_eq_range']
    exact List.pairwise_lt_range cs.length
  simpa using List.Pairwise.sublist hsub hr

theorem mapGet_mapSet_self (m : List (String × Question)) (k : String)
    (v : Question) : mapGet (mapSet m k v) k = some v := by
  induction m with
  | nil => simp [mapSet, mapGet]
  | cons kv rest ih =>
      by_cases h : kv.1 = k
      · simp [mapSet, mapGet, h]
      · simp [mapSet, mapGet, h, ih]

theorem mapGet_mapSet_ne (m : List (String × Question)) (k k' : String)
    (v : Question) (h : k' ≠ k) : mapGet (mapSet m k' v) k = mapGet m k := by
  induction m with
  | nil => simp [mapSet, mapGet, h]
  | cons kv rest ih =>
      by_cases h2 : kv.1 = k'
      · simp [mapSet, mapGet, h2, h]
      · have hkk : ¬(k = k') := fun hh => h hh.symm
        by_cases h3 : kv.1 = k
        · simp [mapSet, mapGet, h2, h3, hkk]
        · simp [mapSet, mapGet, h2, h3, ih]

theorem mapGet_mapSet_isSome (m : List (String × Question)) (k k' : String)
    (v : Question) (h : (mapGet m k).isSome = true) :
    (mapGet (mapSet m k' v) k).isSome = true := by
  by_cases hk : k' = k
  · subst hk; simp [mapGet_mapSet_self]
  · rwa [mapGet_mapSet_ne m k k' v hk]

theorem storeQuestions_isSome (qs : List Question)
    (st : List (String × Question)) (k : String)
    (h : (mapGet st k).isSome = true) :
    (mapGet (storeQuestions qs st) k).isSome = true := by
  induction qs generalizing st with
  | nil => simpa [storeQuestions] using h
  | cons q rest ih =>
      simp only [storeQuestions, List.foldl_cons]
      exact ih (mapSet st q.id q) (mapGet_mapSet_isSome st k q.id q h)

theorem storeQuestions_preserve (qs : List Question)
    (st : List (String × Question)) (k : String)
    (h : ∀ q ∈ qs, q.id ≠ k) :
    mapGet (storeQuestions qs st) k = mapGet st k := by
  induction qs generalizing st with
  | nil => simp [storeQuestions]
  | cons q rest ih =>
      simp only [storeQuestions, List.foldl_cons]
      rw [show List.foldl (fun m q => mapSet m q.id q) (mapSet st q.id q) rest =
          storeQuestions rest (mapSet st q.id q) from rfl]
      rw [ih (mapSet st q.id q) (fun q' hq' => h q' (List.mem_cons_of_mem q hq'))]
      exact mapGet_mapSet_ne st k q.id q (h q (List.mem_cons_self q rest))

theorem checkAnswer_isSome_iff (st : List (String × Question)) (qid : String)
    (ua : JSVal) : (checkAnswer st qid ua).isSome = (mapGet st qid).isSome := by
  unfold checkAnswer
  cases mapGet st qid <;> rfl

theorem genNormalizeAux_length (sections : List JSVal) (freshIds : Nat → String)
    (list : List RawQuestion) :
    ∀ i, (genNormalizeAux sections freshIds list i).length = list.length := by
  induction list with
  | nil => intro i; rfl
  | cons q rest ih => intro i; simp [genNormalizeAux, ih]

theorem genNormalizeAux_get? (sections : List JSVal) (freshIds : Nat → String)
    (list : List RawQuestion) :
    ∀ k i, (genNormalizeAux sections freshIds list k).get? i =
      (list.get? i).map fun q =>
        normalizeQuestion q (freshIds (k + i)) (sectionFallback sections (k + i)) := by
  induction list with
  | nil => intro k i; simp [genNormalizeAux]
  | cons q rest ih =>
      intro k i
      cases i with
      | zero => simp [genNormalizeAux]
      | succ n =>
          simp only [genNormalizeAux, List.get?_cons_succ, ih (k + 1) n]
          rw [show k + 1 + n = k + (n + 1) by omega]

/-- C1 counterexample: the candidate with `options = [x, y]` and
`answer = "z"` (resolvable by no tier) is NOT dropped — the generation
response contains it, with the unresolved answer kept verbatim, which is
not a key of its options. -/
theorem unresolvable_answer_kept_cex :
    ((genQuestions [rawZ] [] (fun _ => "r") []).questions.map
      fun q => (q.options, q.answer)) = [(["x", "y"], JSVal.str "z")] ∧
    isOptionKey ["x", "y"] (JSVal.str "z") = false := by
  exact ⟨rfl, rfl⟩

/-- C1 (amended): normalization never fails and drops nothing — the
response has exactly one question per raw candidate; a string answer
matching no tier (not digits, not a single letter A–D, not the trimmed
text of any option) is kept verbatim rather than defaulted, so a returned
mcq question's answer need not be a key of its options. -/
theorem unresolvable_answer_kept
    (list : List RawQuestion) (sections : List JSVal) (freshIds : Nat → String)
    (st : List (String × Question)) (opts : List String) (sA : String)
    (hdig : isDigitString (jsTrim sA) = false)
    (hlet : isLetterAD (jsTrim sA) = false)
    (hfind : opts.findIdx? (fun o => jsTrim o == jsTrim sA) = none) :
    (genQuestions list sections freshIds st).questions.length = list.length ∧
    resolveAnswerNorm opts (.str sA) = .str sA := by
  constructor
  · exact genNormalizeAux_length sections freshIds list 0
  · simp [resolveAnswerNorm, hdig, hlet, hfind]

theorem unresolvable_answer_kept_witness :
    (genQuestions [rawZ] [] (fun _ => "r") []).questions.length = 1 ∧
    resolveAnswerNorm ["x", "y"] (.str "z") = .str "z" := by
  have h := unresolvable_answer_kept [rawZ] [] (fun _ => "r") [] ["x", "y"] "z"
    (by decide) (by decide) (by decide)
  exact ⟨h.1, h.2⟩

/-- C2 counterexample: the `/gen-questions` payload question serializes
all eight fields of the normalized record — including `answer` (here
`"A"`) and `explanation_md` — not only the six fields the claim allows,
and the content field is named `content_md`, not `content`. -/
theorem gen_response_answer_leak_cex :
    ((genQuestions [rawA] [] (fun _ => "r") []).questions.map
        fun q => (questionToFields q).map Prod.fst) =
      [["id", "section_id", "title", "type", "content_md", "options",
        "answer", "explanation_md"]] ∧
    ((genQuestions [rawA] [] (fun _ => "r") []).questions.map
        fun q => q.answer) = [JSVal.str "A"] ∧
    "answer" ∉ ["id", "section_id", "title", "content", "type", "options"] := by
  exact ⟨rfl, rfl, by decide⟩

/-- C2 (amended): each question in the generation response is the full
normalized record — nothing is stripped: its serialized field list is
exactly id, section_id, title, type, content_md, options, answer,
explanation_md, and the answer and explanation_md values are exposed. -/
theorem gen_response_full_records
    (list : List RawQuestion) (sections : List JSVal) (freshIds : Nat → String)
    (st : List (String × Question)) (i : Nat) (q : Question)
    (h : (genQuestions list sections freshIds st).questions.get? i = some q) :
    (∃ raw, list.get? i = some raw ∧
        q = normalizeQuestion raw (freshIds i) (sectionFallback sections i)) ∧
    (questionToFields q).map Prod.fst =
      ["id", "section_id", "title", "type", "content_md", "options",
       "answer", "explanation_md"] ∧
    (questionToFields q).lookup "answer" = some q.answer ∧
    (questionToFields q).lookup "explanation_md" = some q.explanation_md := by
  refine ⟨?_, rfl, rfl, rfl⟩
  have h2 : (genNormalizeAux sections freshIds list 0).get? i = some q := h
  rw [genNormalizeAux_get?] at h2
  simp only [Nat.zero_add] at h2
  cases hg : list.get? i with
  | none => rw [hg] at h2; exact absurd h2 (by simp)
  | some raw =>
      rw [hg] at h2
      simp only [Option.map_some', Option.some_inj] at h2
      exact ⟨raw, rfl, h2.symm⟩

theorem gen_response_full_records_witness :
    (questionToFields (normalizeQuestion rawA "r" (sectionFallback [] 0))).map
        Prod.fst =
      ["id", "section_id", "title", "type", "content_md", "options",
       "answer", "explanation_md"] ∧
    (questionToFields (normalizeQuestion rawA "r" (sectionFallback [] 0))).lookup
        "answer" =
      some (normalizeQuestion rawA "r" (sectionFallback [] 0)).answer :=
  ⟨(gen_response_full_records [rawA] [] (fun _ => "r") [] 0
      (normalizeQuestion rawA "r" (sectionFallback [] 0)) (by rfl)).2.1,
   (gen_response_full_records [rawA] [] (fun _ => "r") [] 0
      (normalizeQuestion rawA "r" (sectionFallback [] 0)) (by rfl)).2.2.1⟩

/-- C3 counterexample: there is no batch identifier — after a second
generation call, a check-answer lookup with the question id stored by the
FIRST call still succeeds (instead of failing with question_not_found),
and the generation payload has only a `questions` key, no `batchId`. -/
theorem no_batch_id_cex :
    (checkAnswer
        (genQuestions [rawQ2] [] (fun _ => "r2")
          (genQuestions [rawQ1] [] (fun _ => "r1") []).store).store
        "q1" (.str "A")).isSome = true ∧
    genPayloadKeys = ["questions"] ∧ "batchId" ∉ genPayloadKeys := by
  exact ⟨rfl, rfl, by decide⟩

/-- C3 (amended): generation allocates no batch identifier (the payload
exposes only the `questions` key); all answers live in one process-wide
map keyed by question id alone, so a stored question stays retrievable by
check-answer after any later generation call that does not reuse its id —
there is no cross-batch isolation. -/
theorem store_shared_across_generations
    (st : List (String × Question)) (k : String) (q : Question)
    (list : List RawQuestion) (sections : List JSVal) (freshIds : Nat → String)
    (hq : mapGet st k = some q)
    (hfresh : ∀ q' ∈ genNormalize list sections freshIds, q'.id ≠ k) :
    mapGet (genQuestions list sections freshIds st).store k = some q ∧
    (∀ ua, (checkAnswer (genQuestions list sections freshIds st).store k
      ua).isSome = true) ∧
    genPayloadKeys = ["questions"] ∧ "batchId" ∉ genPayloadKeys := by
  have hstore : (genQuestions list sections freshIds st).store =
      storeQuestions (genNormalize list sections freshIds) st := rfl
  refine ⟨?_, ?_, rfl, by decide⟩
  · rw [hstore, storeQuestions_preserve _ _ _ hfresh, hq]
  · intro ua
    rw [checkAnswer_isSome_iff, hstore, storeQuestions_preserve _ _ _ hfresh, hq]
    rfl

theorem store_shared_across_generations_witness :
    mapGet
        (genQuestions [rawQ2] [] (fun _ => "r2")
          (genQuestions [rawQ1] [] (fun _ => "r1") []).store).store "q1" =
      some (normalizeQuestion rawQ1 "r1" (sectionFallback [] 0)) :=
  (store_shared_across_generations
    (genQuestions [rawQ1] [] (fun _ => "r1") []).store "q1"
    (normalizeQuestion rawQ1 "r1" (sectionFallback [] 0))
    [rawQ2] [] (fun _ => "r2") (by rfl)
    (by
      intro q' hq'
      simp only [genNormalize, genNormalizeAux, List.mem_singleton] at hq'
      subst hq'
      decide)).1

/-- C10: the `QUESTIONS` store never expires or evicts — the model has no
clock and storage only ever inserts or overwrites, so a stored id stays
retrievable across any sequence of later generation calls; a check-answer
lookup succeeds exactly when the id is in the map; and a later question
with the same id silently overwrites the earlier entry. -/
theorem questions_store_no_expiry_and_overwrite :
    (∀ (qs : List Question) (st : List (String × Question)) (k : String),
      (mapGet st k).isSome = true →
      (mapGet (storeQuestions qs st) k).isSome = true) ∧
    (∀ st qid ua, (checkAnswer st qid ua).isSome = (mapGet st qid).isSome) ∧
    (∀ (st : List (String × Question)) (q₁ q₂ : Question), q₁.id = q₂.id →
      mapGet (storeQuestions [q₂] (storeQuestions [q₁] st)) q₁.id = some q₂) ∧
    (∀ (qs : List Question) (st : List (String × Question)) (k : String),
      (∀ q ∈ qs, q.id ≠ k) →
      mapGet (storeQuestions qs st) k = mapGet st k) := by
  refine ⟨storeQuestions_isSome, checkAnswer_isSome_iff, ?_,
    storeQuestions_preserve⟩
  intro st q₁ q₂ hid
  show mapGet (mapSet (mapSet st q₁.id q₁) q₂.id q₂) q₁.id = some q₂
  rw [hid]
  exact mapGet_mapSet_self _ _ _

theorem questions_store_no_expiry_and_overwrite_witness :
    (mapGet (storeQuestions [qW2] (storeQuestions [qW1] [])) "qq" =
      some qW2) ∧
    (mapGet (storeQuestions [qW1] []) "qq").isSome = true := by
  constructor
  · exact questions_store_no_expiry_and_overwrite.2.2.1 [] qW1 qW2 rfl
  · exact questions_store_no_expiry_and_overwrite.1 [] (storeQuestions [qW1] [])
      "qq" (by rfl)

/-- C4 counterexample: the recognized tag is `"num"`, not `"numeric"`
(a raw type of `"numeric"` normalizes to `"mcq"`); a num-type question
keeps its options (they are not emptied); and its numeric answer is
letter-coerced (0 becomes `"A"`), not kept as a number — normalization
never fails. -/
theorem numeric_type_cex :
    (normalizeQuestion rawNum "r" none).type = "num" ∧
    (normalizeQuestion rawNum "r" none).type ≠ "numeric" ∧
    (normalizeQuestion rawNum "r" none).type ≠ "mcq" ∧
    (normalizeQuestion rawNum "r" none).options = ["1", "2"] ∧
    (normalizeQuestion rawNum "r" none).answer = .str "A" ∧
    (normalizeQuestion rawNumeric "r" none).type = "mcq" := by
  exact ⟨rfl, by decide, by decide, rfl, rfl, rfl⟩

/-- C4 (amended): the normalized type is `"num"` exactly when
`raw.type` is the string `"num"` (anything else, including `"numeric"`,
gives `"mcq"`); a num-type question's options are `raw.options`
stringified, not forced empty; and every numeric `raw.answer` —
regardless of type — is clamped into the option range and mapped to a
letter key, never kept as a number; normalization is total (never
fails). -/
theorem numeric_type_normalization (q : RawQuestion) (f : String)
    (fb : Option JSVal) :
    ((normalizeQuestion q f fb).type = "num" ↔ q.type = .str "num") ∧
    ((normalizeQuestion q f fb).type = "num" ∨
      (normalizeQuestion q f fb).type = "mcq") ∧
    (∀ xs, q.type = .str "num" → q.options = .arr xs →
      (normalizeQuestion q f fb).options = xs.map jsToString) ∧
    (∀ n, q.answer = .num n → (normalizeQuestion q f fb).answer =
      .str (fromCharCode
        (65 + clampIdx (normalizeQuestion q f fb).options.length n))) := by
  have htype : (normalizeQuestion q f fb).type =
      (if strictEqStr q.type "num" then "num" else "mcq") := rfl
  have hopts : (normalizeQuestion q f fb).options =
      normOptions q (if strictEqStr q.type "num" then "num" else "mcq") := rfl
  have hans : (normalizeQuestion q f fb).answer =
      resolveAnswerNorm (normalizeQuestion q f fb).options q.answer := rfl
  refine ⟨?_, ?_, ?_, ?_⟩
  · rw [htype]
    cases hqt : q.type with
    | str s =>
        by_cases hs : s = "num"
        · simp [strictEqStr, hs]
        · simp [strictEqStr, hs]
    | null => simp [strictEqStr]
    | bool b => simp [strictEqStr]
    | num n => simp [strictEqStr]
    | arr xs => simp [strictEqStr]
    | obj kvs => simp [strictEqStr]
  · rw [htype]
    by_cases h : strictEqStr q.type "num" = true
    · left; simp [h]
    · right; simp [h]
  · intro xs ht hx
    have hs : strictEqStr q.type "num" = true := by
      rw [ht]; simp [strictEqStr]
    rw [hopts, hs]
    simp [normOptions, hx]
  · intro n hn
    rw [hans, hn]
    rfl

theorem numeric_type_normalization_witness :
    ((normalizeQuestion rawNum "r" none).type = "num" ↔
      rawNum.type = .str "num") ∧
    (normalizeQuestion rawNum "r" none).options =
      [JSVal.str "1", JSVal.str "2"].map jsToString ∧
    (normalizeQuestion rawNum "r" none).answer =
      .str (fromCharCode
        (65 + clampIdx (normalizeQuestion rawNum "r" none).options.length 0)) :=
  ⟨(numeric_type_normalization rawNum "r" none).1,
   (numeric_type_normalization rawNum "r" none).2.2.1
     [JSVal.str "1", JSVal.str "2"] rfl rfl,
   (numeric_type_normalization rawNum "r" none).2.2.2 0 rfl⟩

/-- C7: sequence-shaped options are kept in input order under positional
letter keys A, B, C, …: options `["2","3","5"]` with index answer `1`
yield the letter view `{A:"2", B:"3", C:"5"}` and answer `"B"`; the same
options with answer `"5"` (the text of option C) yield `"C"`; in general
an options array is stringified elementwise in input order. -/
theorem seq_options_letter_assignment :
    (normalizeQuestion rawSeqIdx "r" none).options = ["2", "3", "5"] ∧
    letterMap (normalizeQuestion rawSeqIdx "r" none).options =
      [("A", "2"), ("B", "3"), ("C", "5")] ∧
    (normalizeQuestion rawSeqIdx "r" none).answer = .str "B" ∧
    (normalizeQuestion rawSeqText "r" none).answer = .str "C" ∧
    (∀ (q : RawQuestion) (f : String) (fb : Option JSVal) (xs : List JSVal),
      q.options = .arr xs → xs ≠ [] →
      (normalizeQuestion q f fb).options = xs.map jsToString) := by
  refine ⟨rfl, rfl, rfl, rfl, ?_⟩
  intro q f fb xs hx hne
  have hopts : (normalizeQuestion q f fb).options =
      normOptions q (if strictEqStr q.type "num" then "num" else "mcq") := rfl
  rw [hopts]
  have hmap : (xs.map jsToString).isEmpty = false := by
    cases xs with
    | nil => exact absurd rfl hne
    | cons y ys => rfl
  simp [normOptions, hx, hmap]

theorem seq_options_letter_assignment_witness :
    (normalizeQuestion { options := .arr [.str "7"], answer := .num 0 }
      "w" none).options = [JSVal.str "7"].map jsToString :=
  seq_options_letter_assignment.2.2.2.2
    { options := .arr [.str "7"], answer := .num 0 } "w" none
    [JSVal.str "7"] rfl (List.cons_ne_nil _ _)

/-- C8 counterexample: for a canonical question with `answer = "B"` whose
option B has literal text `"5"`, submitting that literal text yields
`correct = false` — the digit-string tier fires first and maps `"5"` to
the (unclamped) index 5, i.e. letter `"F"`. -/
theorem mcq_user_text_digit_cex :
    ((checkAnswer [("q1", qDigitText)] "q1" (.str "5")).map
      fun p => p.correct) = some false ∧
    qDigitText.options.get? 1 = some "5" ∧
    qDigitText.answer = .str "B" ∧
    resolveUserAns qDigitText.options (.str "5") = .str "F" := by
  exact ⟨rfl, rfl, rfl, rfl⟩

/-- C8 (amended): for a stored mcq question with `answer = "B"`, the
resolver accepts `"b"` (case-insensitive letter) and the number 1
(zero-based index) as correct, and the literal text of option B as
correct PROVIDED that text is not itself a digit string, not a single
letter A–D, and not the trimmed text of an earlier option; any user
answer is handled without error, and one resolving to no option key is
simply incorrect. -/
theorem mcq_resolver_tiers
    (st : List (String × Question)) (qid : String) (q : Question)
    (hq : mapGet st qid = some q) (htype : q.type = "mcq")
    (hans : q.answer = .str "B") :
    ((checkAnswer st qid (.num 1)).map fun p => p.correct) = some true ∧
    ((checkAnswer st qid (.str "b")).map fun p => p.correct) = some true ∧
    (∀ t : String, q.options.findIdx? (fun o => jsTrim o == jsTrim t) = some 1 →
      isDigitString (jsTrim t) = false → isLetterAD (jsTrim t) = false →
      ((checkAnswer st qid (.str t)).map fun p => p.correct) = some true) ∧
    (∀ v, (checkAnswer st qid v).isSome = true) ∧
    (∀ v, (¬ ∃ i, i < q.options.length ∧
        jsUpper (jsToString (resolveUserAns q.options v)) =
          fromCharCode (65 + (i : Int))) →
      1 < q.options.length →
      ((checkAnswer st qid v).map fun p => p.correct) = some false) := by
  have hcheck : ∀ v, ((checkAnswer st qid v).map fun p => p.correct) =
      some (jsUpper (jsToString (resolveUserAns q.options v)) ==
        jsUpper (jsToString q.answer)) := by
    intro v
    unfold checkAnswer
    rw [hq]
    simp [htype]
  have hB : jsUpper (jsToString q.answer) = "B" := by rw [hans]; rfl
  refine ⟨?_, ?_, ?_, ?_, ?_⟩
  · rw [hcheck, hB]
    have h1 : resolveUserAns q.options (.num 1) = .str (fromCharCode (65 + 1)) :=
      rfl
    rw [h1]
    decide
  · rw [hcheck, hB]
    have h1 : resolveUserAns q.options (.str "b") = .str (jsUpper (jsTrim "b")) :=
      rfl
    rw [h1]
    decide
  · intro t hfind hdig hlet
    rw [hcheck, hB]
    have h1 : resolveUserAns q.options (.str t) = .str (fromCharCode (65 + 1)) := by
      simp [resolveUserAns, hdig, hlet, hfind]
    rw [h1]
    decide
  · intro v
    rw [checkAnswer_isSome_iff, hq]
    rfl
  · intro v hnk hlen
    rw [hcheck, hB]
    have hne : jsUpper (jsToString (resolveUserAns q.options v)) ≠ "B" := by
      intro heq
      exact hnk ⟨1, hlen, by rw [heq]; decide⟩
    simp [hne]

theorem mcq_resolver_tiers_witness :
    ((checkAnswer [("q1", qDigitText)] "q1" (.num 1)).map
      fun p => p.correct) = some true ∧
    ((checkAnswer [("q1", qDigitText)] "q1" (.str "b")).map
      fun p => p.correct) = some true ∧
    ((checkAnswer [("q1", qDigitText)] "q1" (.str "zz")).map
      fun p => p.correct) = some false := by
  have h := mcq_resolver_tiers [("q1", qDigitText)] "q1" qDigitText
    rfl rfl rfl
  refine ⟨h.1, h.2.1, ?_⟩
  exact h.2.2.2.2 (.str "zz") (by decide) (by decide)

/-- C9 counterexample: the two resolution pipelines are NOT the same
function: on options `[x, y]` the numeric answer 5 resolves to `"B"`
during normalization (index clamped into range) but to `"F"` during
answer checking (no clamp). -/
theorem resolution_pipelines_differ_cex :
    resolveAnswerNorm ["x", "y"] (.num 5) = .str "B" ∧
    resolveUserAns ["x", "y"] (.num 5) = .str "F" ∧
    JSVal.str "B" ≠ JSVal.str "F" := by
  refine ⟨rfl, rfl, ?_⟩
  simp

/-- C9 (amended): the two pipelines agree on every value outside the
numeric-index tier (letters, exact option-text matches, and unresolvable
values are handled identically); on the numeric tier normalization clamps
the index into the option range while answer checking does not, so they
agree exactly on in-range indices and can differ out of range. -/
theorem resolution_pipelines_amended (opts : List String) (v : JSVal) :
    (numIdxOf v = none → resolveAnswerNorm opts v = resolveUserAns opts v) ∧
    (∀ n, numIdxOf v = some n →
      resolveAnswerNorm opts v = .str (fromCharCode (65 + clampIdx opts.length n)) ∧
      resolveUserAns opts v = .str (fromCharCode (65 + n))) ∧
    (∀ n : Int, 0 ≤ n → n ≤ (opts.length : Int) - 1 → clampIdx opts.length n = n) := by
  refine ⟨?_, ?_, ?_⟩
  · intro hnone
    cases v with
    | num n => exact absurd hnone (by simp [numIdxOf])
    | str s =>
        by_cases hdig : isDigitString (jsTrim s) = true
        · exact absurd hnone (by simp [numIdxOf, hdig])
        · simp only [Bool.not_eq_true] at hdig
          simp [resolveAnswerNorm, resolveUserAns, hdig]
    | null => rfl
    | bool b => rfl
    | arr xs => rfl
    | obj kvs => rfl
  · intro n hn
    cases v with
    | num m =>
        simp only [numIdxOf, Option.some_inj] at hn
        subst hn
        exact ⟨rfl, rfl⟩
    | str s =>
        by_cases hdig : isDigitString (jsTrim s) = true
        · simp only [numIdxOf, hdig, if_true, Option.some_inj] at hn
          subst hn
          constructor
          · simp [resolveAnswerNorm, hdig]
          · simp [resolveUserAns, hdig]
        · exact absurd hn (by simp [numIdxOf, hdig])
    | null => exact absurd hn (by simp [numIdxOf])
    | bool b => exact absurd hn (by simp [numIdxOf])
    | arr xs => exact absurd hn (by simp [numIdxOf])
    | obj kvs => exact absurd hn (by simp [numIdxOf])
  · intro n h0 hle
    simp only [clampIdx]
    omega

theorem resolution_pipelines_amended_witness :
    resolveAnswerNorm ["x", "y"] (.str "zz") = resolveUserAns ["x", "y"] (.str "zz") ∧
    resolveAnswerNorm ["x", "y"] (.num 1) = .str (fromCharCode (65 + clampIdx 2 1)) ∧
    resolveUserAns ["x", "y"] (.num 1) = .str (fromCharCode (65 + 1)) ∧
    clampIdx 2 1 = 1 :=
  ⟨(resolution_pipelines_amended ["x", "y"] (.str "zz")).1 (by decide),
   ((resolution_pipelines_amended ["x", "y"] (.num 1)).2.1 1 rfl).1,
   ((resolution_pipelines_amended ["x", "y"] (.num 1)).2.1 1 rfl).2,
   (resolution_pipelines_amended ["x", "y"] (.num 1)).2.2 1 (by decide) (by decide)⟩

/-- C5: `extractJson` is exactly "first parsing span wins": it returns
the parsed value of the first top-level brace-balanced span in
left-to-right order of the closing brace that the slice parser accepts,
scanning past spans that fail to parse; the candidate spans each open
with `{` at scan depth 0 and close with the `}` that returns the depth to
0 (so the span's braces balance), they are listed in strictly increasing
position, and when every candidate fails the extractor fails
(`NoJsonFound`, the thrown error). -/
theorem extractJson_first_parsing_span {α : Type} (parse : String → Option α)
    (s : String) :
    extractJsonWith parse s =
      (specSpans s.data).findSome? (fun p => parse (sliceStr s p.1 (p.2 + 1))) ∧
    extractJson s =
      (specSpans s.data).findSome? (fun p => jsonParse (sliceStr s p.1 (p.2 + 1))) ∧
    (∀ p ∈ specSpans s.data,
      s.data[p.1]? = some '{' ∧ braceDepth (s.data.take p.1) = 0 ∧
      s.data[p.2]? = some '}' ∧ braceDepth (s.data.take (p.2 + 1)) = 0 ∧
      p.1 < p.2 ∧ braceDepth ((s.data.take (p.2 + 1)).drop p.1) = 0) ∧
    ((specSpans s.data).map Prod.snd).Pairwise (· < ·) ∧
    ((∀ p ∈ specSpans s.data, parse (sliceStr s p.1 (p.2 + 1)) = none) →
      extractJsonWith parse s = none) := by
  refine ⟨extractJsonWith_eq_spec parse s, extractJsonWith_eq_spec jsonParse s,
    fun p hp => specSpans_mem hp, specSpans_snd_sorted s.data, ?_⟩
  intro hall
  rw [extractJsonWith_eq_spec]
  exact List.findSome?_eq_none_iff.mpr hall

theorem extractJson_first_parsing_span_witness :
    extractJson "ok \x7boops\x7d \x7b\"a\":[1,2]\x7d end" =
      (specSpans ("ok \x7boops\x7d \x7b\"a\":[1,2]\x7d end").data).findSome?
        (fun p => jsonParse (sliceStr "ok \x7boops\x7d \x7b\"a\":[1,2]\x7d end" p.1 (p.2 + 1))) ∧
    extractJson "ok \x7boops\x7d \x7b\"a\":[1,2]\x7d end" =
      some (Json.obj [("a", Json.arr [Json.num 1 0, Json.num 2 0])]) ∧
    specSpans ("ok \x7boops\x7d \x7b\"a\":[1,2]\x7d end").data = [(3, 8), (10, 20)] ∧
    jsonParse (sliceStr "ok \x7boops\x7d \x7b\"a\":[1,2]\x7d end" 3 9) = none ∧
    extractJsonWith (fun _ => (none : Option Json)) "{}" = none := by
  refine ⟨(extractJson_first_parsing_span jsonParse
      "ok \x7boops\x7d \x7b\"a\":[1,2]\x7d end").2.1, ?_, by decide, rfl, ?_⟩
  · rw [(extractJson_first_parsing_span jsonParse
      "ok \x7boops\x7d \x7b\"a\":[1,2]\x7d end").2.1]
    rfl
  · exact (extractJson_first_parsing_span (fun _ => (none : Option Json))
      "{}").2.2.2.2 (fun p _ => rfl)

theorem braceDepth_eq_counts (cs : List Char) :
    braceDepth cs = (cs.count '{' : Int) - (cs.count '}' : Int) := by
  induction cs with
  | nil => simp [braceDepth]
  | cons c rest ih =>
      rw [braceDepth, List.foldl_cons, foldl_braceStep_shift, ih]
      by_cases h1 : c = '{'
      · subst h1
        simp [braceStep, List.count_cons]
        ring
      · by_cases h2 : c = '}'
        · subst h2
          simp [braceStep, List.count_cons, h1]
          ring
        · simp [braceStep, h1, h2, List.count_cons, Ne.symm h1, Ne.symm h2]

/-- C6 counterexample: the scanner does NOT honor string-literal quoting:
on the valid JSON text `{"a":"}"}` (whose string value contains `}`), the
in-string `}` is counted, the sole candidate span ends there (positions 0
to 6, the truncated slice `{"a":"}`), and extraction fails even though
`JSON.parse` accepts the whole text. -/
theorem scanner_not_string_aware_cex :
    jsonParse "\x7b\"a\":\"\x7d\"\x7d" = some (Json.obj [("a", Json.str "\x7d")]) ∧
    extractJson "\x7b\"a\":\"\x7d\"\x7d" = none ∧
    specSpans ("\x7b\"a\":\"\x7d\"\x7d").data = [(0, 6)] ∧
    sliceStr "\x7b\"a\":\"\x7d\"\x7d" 0 7 = "\x7b\"a\":\"\x7d" := by
  exact ⟨rfl, rfl, by decide, rfl⟩

/-- C6 (amended): the brace-depth scanner has no in-string mode — every
`{` and `}` character changes the depth, string literals included: the
scan depth of any prefix is exactly (count of `{`) − (count of `}`), so a
brace embedded in a string value can produce a false span boundary and
make extraction fail on valid JSON, as on `{"a":"}"}`. -/
theorem scanner_depth_counts_all_braces :
    (∀ cs : List Char,
      braceDepth cs = (cs.count '{' : Int) - (cs.count '}' : Int)) ∧
    extractJson "\x7b\"a\":\"\x7d\"\x7d" = none ∧
    jsonParse "\x7b\"a\":\"\x7d\"\x7d" = some (Json.obj [("a", Json.str "\x7d")]) := by
  exact ⟨braceDepth_eq_counts, rfl, rfl⟩
